import Mathlib

/-!
Verification of the fmriprep confound-loading pipeline (src/load_confounds.py)
against its specification.

Modelling conventions:
* A pandas `DataFrame` is a `DF`: an ordered list of named columns, each a
  list of cells; a cell is `Option ℚ` (`none` models a missing value / NaN).
* Python `set` objects are duplicate-free `List String` values in a
  canonical (insertion) order, built with `pyInsert`/`pyUnion`/`toPySet`;
  CPython set iteration order is unspecified, and no verified property
  depends on the canonical order chosen. `list(someSet)` is then the list
  itself.
* Column selection `df[nameList]` raises `KeyError` when a requested label is
  absent (pandas ≥ 1.0 semantics); this is modelled by `DF.select` returning
  `Except`.
* The external collaborators (the tab-separated file loader, and sklearn's
  PCA transform) are parameters: `fs : String → Option DF` for the loader and
  `pca : List (List ℚ) → ℚ → List (List ℚ)` for the PCA transform, which maps
  the complete-case value matrix and the `n_components` setting to the list
  of component columns.
-/

set_option autoImplicit false

namespace LoadConfounds

/-- Python exception kinds surfaced by the pipeline. -/
inductive PyErr where
  | valueError (msg : String)
  | keyError (key : String)
  | typeError
  | parseError (path : String)
  deriving DecidableEq, Repr

/-- A pandas DataFrame: ordered named columns of cells; a cell `none` is NaN. -/
structure DF where
  cols : List (String × List (Option ℚ))
  deriving DecidableEq, Repr

/-- A Python value as far as `load_confounds` type-dispatches on it. -/
inductive PyVal where
  | df (d : DF)
  | str (s : String)
  | list (l : List PyVal)
  | other

/-- `df.columns`, in order. -/
def DF.columns (d : DF) : List String := d.cols.map Prod.fst

/-- Look up a column's cells by name (first match, as pandas label lookup). -/
def DF.lookupCol (d : DF) (n : String) : Option (List (Option ℚ)) :=
  (d.cols.find? (fun c => c.1 = n)).map Prod.snd

/-- `df[names]`: slice a list of columns; `KeyError` on the first absent label
(pandas ≥ 1.0 list-indexing semantics). -/
def DF.select (d : DF) (names : List String) : Except PyErr DF :=
  match names.find? (fun n => (d.lookupCol n).isNone) with
  | some missing => .error (.keyError missing)
  | none => .ok ⟨names.map (fun n => (n, (d.lookupCol n).getD []))⟩

/-- `pd.concat((a, b), axis=1)` for two frames over the same row index. -/
def DF.concat (a b : DF) : DF := ⟨a.cols ++ b.cols⟩

/-- Row count of a frame (pandas frames are rectangular; first column rules). -/
def DF.nrows (d : DF) : ℕ := (d.cols.head?.map (fun c => c.2.length)).getD 0

/-- Row `i` has no missing value in any column. -/
def DF.rowComplete (d : DF) (i : ℕ) : Bool :=
  d.cols.all (fun c => (c.2.getD i none).isSome)

/-- `df.dropna()`: keep only complete rows. -/
def DF.dropna (d : DF) : DF :=
  let keep := (List.range d.nrows).filter (fun i => d.rowComplete i)
  ⟨d.cols.map (fun c => (c.1, keep.map (fun i => c.2.getD i none)))⟩

/-- `df.values` (row-major) of a frame with no missing values. -/
def DF.valuesRows (d : DF) : List (List ℚ) :=
  (List.range d.nrows).map (fun i => d.cols.map (fun c => ((c.2.getD i none).getD 0)))

/-- Python substring containment on character lists (`needle in hay`). -/
def takesFrom : List Char → List Char → Bool
  | [], _ => true
  | _ :: _, [] => false
  | n :: ns, h :: hs => (n = h) && takesFrom ns hs

/-- `hasSub needle hay`: `needle` occurs contiguously inside `hay`. -/
def hasSub : List Char → List Char → Bool
  | needle, [] => needle.isEmpty
  | needle, h :: hs => takesFrom needle (h :: hs) || hasSub needle hs

/-- Python's `needle in hay` on strings. -/
def strContains (hay needle : String) : Bool := hasSub needle.data hay.data

/-- Python's single-placeholder `template.format(arg)`: each occurrence of
the placeholder pair is replaced by `arg`. -/
def formatChars (arg : List Char) : List Char → List Char
  | [] => []
  | [c] => [c]
  | c1 :: c2 :: rest =>
    if c1 = '\x7b' && c2 = '\x7d' then arg ++ formatChars arg rest
    else c1 :: formatChars arg (c2 :: rest)

/-- `tmpl.format(arg)` for the motion-model templates. -/
def pyFormat (tmpl arg : String) : String := ⟨formatChars arg.data tmpl.data⟩

/-- `motion_6params` from the source. -/
def motion_6params : List String :=
  ["trans_x", "trans_y", "trans_z", "rot_x", "rot_y", "rot_z"]

/-- The `motion_models` template dictionary from the source. -/
def motion_models (k : String) : Option String :=
  if k = "6params" then some "\x7b\x7d"
  else if k = "derivatives" then some "\x7b\x7d_derivative1"
  else if k = "square" then some "\x7b\x7d_power2"
  else if k = "full" then some "\x7b\x7d_derivative1_power2"
  else none

/-- `motion_models.keys()` in dict insertion order. -/
def motion_models_keys : List String := ["6params", "derivatives", "square", "full"]

/-- The `confound_dict` pattern dictionary from the source, with the derived
`minimal` entry (`motion + high_pass_filter + matter`). -/
def confound_dict (k : String) : Option (List String) :=
  if k = "motion" then some ["trans", "rot"]
  else if k = "matter" then some ["csf", "white_matter"]
  else if k = "high_pass_filter" then some ["cosine"]
  else if k = "compcor" then some ["comp_cor"]
  else if k = "minimal" then some (["trans", "rot"] ++ ["cosine"] ++ ["csf", "white_matter"])
  else none

/-- Python `s.add(x)` on the canonical set representation: append the element
unless already present. -/
def pyInsert (s : List String) (x : String) : List String :=
  if x ∈ s then s else s ++ [x]

/-- Python `s | set(l)` on the canonical set representation. -/
def pyUnion (s l : List String) : List String := l.foldl pyInsert s

/-- Python `set(l)`: the duplicate-free canonical set built from a list. -/
def toPySet (l : List String) : List String := pyUnion [] l

/-- `_confound_strat` from the source: all raw column names containing any of
the strategy's patterns as a substring (one occurrence per matching pattern,
as the Python double comprehension produces). `confound_dict[strategy]` on an
unknown key would raise; callers guard, so the unknown case yields `[]`. -/
def _confound_strat (strategy : String) (confound_raw : DF) : List String :=
  confound_raw.columns.flatMap (fun col =>
    (((confound_dict strategy).getD []).filter (fun conf => strContains col conf)).map
      (fun _ => col))

/-- `_add_motion_model` from the source; `none` models the `KeyError` a model
name outside the dictionary would raise. The returned Python set is in
canonical (construction) order. -/
def _add_motion_model (motion_model : String) : Option (List String) :=
  if motion_model ≠ "full" then
    (motion_models motion_model).map (fun tmpl =>
      toPySet (motion_6params ++ motion_6params.map (fun mot => pyFormat tmpl mot)))
  else
    some (toPySet (motion_models_keys.flatMap (fun model =>
      motion_6params.map (fun mot => pyFormat ((motion_models model).getD "") mot))))

/-- The `motion_pca_` renaming of the source (lines 152–154): the transformed
frame's integer columns `0..k-1` become `motion_pca_1..motion_pca_k`. -/
def pcaRename (k : ℕ) : List String :=
  (List.range k).map (fun i => "motion_pca_" ++ toString (i + 1))

/-- `_pca_motion` from the source. `pca` is the external sklearn collaborator:
given the complete-case value matrix and `n_components` it returns the list of
component columns of the transformed frame. -/
def _pca_motion (pca : List (List ℚ) → ℚ → List (List ℚ))
    (confounds_out confounds_raw : DF) (n_components : ℚ) (motion_model : String) :
    Except PyErr DF :=
  match _add_motion_model motion_model with
  | none => .error (.keyError motion_model)
  | some motion_confounds =>
    match confounds_raw.select motion_confounds with
    | .error e => .error e
    | .ok motion_parameters_raw =>
      if n_components = 0 then
        .ok (DF.concat confounds_out motion_parameters_raw)
      else
        let dropped := motion_parameters_raw.dropna
        let comps := pca dropped.valuesRows n_components
        let confounds_pca : DF := ⟨(pcaRename comps.length).zip
          (comps.map (fun col => col.map some))⟩
        .ok (DF.concat confounds_out confounds_pca)

/-- The `confounds_of_interest` set built by `_load_confounds_main`'s strategy
loop: known strategy names contribute their matching raw columns, anything
else is added as a literal column name. -/
def interestStep (confounds_raw : DF) (acc : List String) (strat : String) : List String :=
  if (confound_dict strat).isSome then pyUnion acc (_confound_strat strat confounds_raw)
  else pyInsert acc strat

/-- The full strategy loop of `_load_confounds_main`, starting from the empty
set. -/
def resolveInterest (confounds_raw : DF) (strategy : List String) : List String :=
  strategy.foldl (interestStep confounds_raw) []

/-- The `non_motion_confounds` list of `_load_confounds_main`: members of the
interest set containing neither "rot" nor "trans". -/
def nonMotionList (confounds_raw : DF) (strategy : List String) : List String :=
  (resolveInterest confounds_raw strategy).filter
    (fun conf => !(strContains conf "rot") && !(strContains conf "trans"))

/-- `pd.read_csv` dispatch at the top of `_load_confounds_main`: a frame is
used as-is, a string goes through the loader collaborator `fs` (whose
`FileNotFound`/`ParseError` propagates), anything else is a type error. -/
def loadRaw (fs : String → Option DF) : PyVal → Except PyErr DF
  | .df d => .ok d
  | .str s =>
    match fs s with
    | some d => .ok d
    | none => .error (.parseError s)
  | _ => .error .typeError

/-- `_load_confounds_main` from the source. -/
def _load_confounds_main (pca : List (List ℚ) → ℚ → List (List ℚ))
    (fs : String → Option DF) (confounds_raw : PyVal)
    (strategy : List String) (n_components : ℚ) (motion_model : String) :
    Except PyErr DF :=
  match loadRaw fs confounds_raw with
  | .error e => .error e
  | .ok raw =>
    let interest := resolveInterest raw strategy
    match raw.select (nonMotionList raw strategy) with
    | .error e => .error e
    | .ok confounds_out =>
      if motion_6params.any (fun p => interest.contains p) then
        _pca_motion pca confounds_out raw n_components motion_model
      else
        .ok confounds_out

/-- `confound_raw[-6:]`: the last six characters of a Python string. -/
def last6 (s : String) : String := ⟨(s.data.reverse.take 6).reverse⟩

/-- The `.nii.gz` path suffix `_load_confounds_helper` rewrites. -/
def boldSuffix : String := "_space-MNI152NLin2009cAsym_desc-preproc_bold.nii.gz"

/-- The confounds-file suffix it rewrites to. -/
def tsvSuffix : String := "_desc-confounds_regressors.tsv"

/-- Python `s.replace(old, new)` (all occurrences) for the path rewrite, on
character lists. -/
def replaceChars (old new : List Char) : List Char → List Char
  | [] => []
  | h :: hs =>
    if takesFrom old (h :: hs) && !old.isEmpty then
      new ++ replaceChars old new (hs.drop (old.length - 1))
    else
      h :: replaceChars old new hs
termination_by l => l.length
decreasing_by
  · simp [List.length_drop]; omega
  · simp

/-- Python `s.replace(old, new)` on strings. -/
def pyReplace (s old new : String) : String := ⟨replaceChars old.data new.data s.data⟩

/-- `_load_confounds_helper` from the source, on a string path. -/
def _load_confounds_helper (pca : List (List ℚ) → ℚ → List (List ℚ))
    (fs : String → Option DF) (confound_raw : String)
    (strategy : List String) (n_components : ℚ) (motion_model : String) :
    Except PyErr DF :=
  if !(strContains (last6 confound_raw) "nii") then
    _load_confounds_main pca fs (.str confound_raw) strategy n_components motion_model
  else
    _load_confounds_main pca fs (.str (pyReplace confound_raw boldSuffix tsvSuffix))
      strategy n_components motion_model

/-- `_load_confounds_helper` applied to an arbitrary batch element. A frame
element passes `"nii" not in df[-6:]` as a column-membership test and
`df.replace` is a value no-op on numeric frames, so it reaches the main path
unchanged; any other element type fails on the slice `confound_raw[-6:]`. -/
def _load_confounds_helper_val (pca : List (List ℚ) → ℚ → List (List ℚ))
    (fs : String → Option DF) (confound_raw : PyVal)
    (strategy : List String) (n_components : ℚ) (motion_model : String) :
    Except PyErr DF :=
  match confound_raw with
  | .str s => _load_confounds_helper pca fs s strategy n_components motion_model
  | .df d => _load_confounds_main pca fs (.df d) strategy n_components motion_model
  | _ => .error .typeError

/-- `load_confounds` from the source: dispatch on the runtime type of the
input; anything that is neither a string nor a list raises
`ValueError("Invalid input type")`. -/
def load_confounds (pca : List (List ℚ) → ℚ → List (List ℚ))
    (fs : String → Option DF) (confounds_raw : PyVal)
    (strategy : List String) (n_components : ℚ) (motion_model : String) :
    Except PyErr PyVal :=
  match confounds_raw with
  | .str s =>
    (_load_confounds_helper pca fs s strategy n_components motion_model).map .df
  | .list l =>
    (l.mapM (fun file =>
      _load_confounds_helper_val pca fs file strategy n_components motion_model)).map
      (fun outs => .list (outs.map .df))
  | _ => .error (.valueError "Invalid input type")

instance instDecEqExcept {ε α : Type} [DecidableEq ε] [DecidableEq α] :
    DecidableEq (Except ε α)
  | .error a, .error b =>
    if h : a = b then isTrue (by rw [h]) else isFalse (by intro hc; cases hc; exact h rfl)
  | .error _, .ok _ => isFalse (by intro hc; cases hc)
  | .ok _, .error _ => isFalse (by intro hc; cases hc)
  | .ok a, .ok b =>
    if h : a = b then isTrue (by rw [h]) else isFalse (by intro hc; cases hc; exact h rfl)

/-- Modelled from the spec: the component-count selection of the external PCA
collaborator (sklearn, outside this repository's source) under a
variance-proportion target, per §4.4: "the minimum count needed to reach the
requested cumulative explained-variance proportion". `evr` is the list of
explained-variance ratios of the full decomposition, in component order;
`pcaNumComponents t evr` is the least `k` with
`(evr.take k).sum ≥ t` (the list's length when the target is unreachable). -/
def pcaNumComponents (t : ℚ) : List ℚ → ℕ
  | [] => 0
  | x :: xs => if t ≤ x then 1 else 1 + pcaNumComponents (t - x) xs

/-- Fixture: a PCA collaborator stub returning no components (never consulted
by the paths under test that use it). -/
def pcaZero : List (List ℚ) → ℚ → List (List ℚ) := fun _ _ => []

/-- Fixture: a PCA collaborator stub returning two component columns. -/
def pcaTwo : List (List ℚ) → ℚ → List (List ℚ) := fun _ _ => [[0, 0], [0, 0]]

/-- Fixture: a loader for an empty file system. -/
def fsEmpty : String → Option DF := fun _ => none

/-- Fixture: the example table of spec §8, with columns
`[trans_x, rot_y, csf, cosine00, t_comp_cor_00]`. -/
def specTable : DF :=
  ⟨[("trans_x", [some 1, some 2]), ("rot_y", [some 3, some 4]),
    ("csf", [some 5, some 6]), ("cosine00", [some 7, some 8]),
    ("t_comp_cor_00", [some 9, some 10])]⟩

/-- Fixture: a complete table containing all six base motion parameters and a
`csf` column. -/
def motTable : DF :=
  ⟨[("trans_x", [some 1, some 2]), ("trans_y", [some 3, some 4]),
    ("trans_z", [some 5, some 6]), ("rot_x", [some 7, some 8]),
    ("rot_y", [some 9, some 10]), ("rot_z", [some 11, some 12]),
    ("csf", [some 13, some 14])]⟩

/-- Fixture: a loader serving `motTable` for three file references. -/
def fsBatch : String → Option DF :=
  fun s => if s = "a.tsv" || s = "b.tsv" || s = "c.tsv" then some motTable else none

/-- Fixture: a table whose only column contains "rot" as a substring without
being one of the six base motion parameters. -/
def rotTable : DF := ⟨[("rotation_q", [some 1])]⟩

/-- Fixture: the slice of `motTable` by the six base motion parameters, which
is also the single-table output for strategy `["motion"]` with no reduction. -/
def motOnlyOut : DF :=
  ⟨[("trans_x", [some 1, some 2]), ("trans_y", [some 3, some 4]),
    ("trans_z", [some 5, some 6]), ("rot_x", [some 7, some 8]),
    ("rot_y", [some 9, some 10]), ("rot_z", [some 11, some 12])]⟩

/-- Fixture: the single-table output for `motTable` under strategy
`["minimal"]` with no reduction: the `csf` column followed by the six raw
motion columns. -/
def batchOut : DF :=
  ⟨[("csf", [some 13, some 14]),
    ("trans_x", [some 1, some 2]), ("trans_y", [some 3, some 4]),
    ("trans_z", [some 5, some 6]), ("rot_x", [some 7, some 8]),
    ("rot_y", [some 9, some 10]), ("rot_z", [some 11, some 12])]⟩

/-! Helper lemmas about column slicing. -/

theorem DF.select_ok (d : DF) (names : List String)
    (hall : ∀ n ∈ names, (d.lookupCol n).isSome) :
    d.select names = .ok ⟨names.map (fun n => (n, (d.lookupCol n).getD []))⟩ := by
  unfold DF.select
  have h : names.find? (fun n => (d.lookupCol n).isNone) = none := by
    rw [List.find?_eq_none]
    intro x hx
    have hs := hall x hx
    simp only [Option.isNone_iff_eq_none]
    intro hno
    rw [hno] at hs
    simp at hs
  rw [h]

theorem DF.select_err (d : DF) (names : List String)
    (h : ∃ n ∈ names, d.lookupCol n = none) :
    ∃ c, d.select names = .error (.keyError c) := by
  unfold DF.select
  obtain ⟨n, hn, hno⟩ := h
  have hsome : (names.find? (fun n => (d.lookupCol n).isNone)).isSome := by
    rw [List.find?_isSome]
    exact ⟨n, hn, by simp [hno]⟩
  obtain ⟨c, hc⟩ := Option.isSome_iff_exists.mp hsome
  rw [hc]
  exact ⟨c, rfl⟩

theorem lookup_selected (d : DF) (names : List String) (n : String) (hn : n ∈ names) :
    DF.lookupCol ⟨names.map (fun m => (m, (d.lookupCol m).getD []))⟩ n
      = some ((d.lookupCol n).getD []) := by
  induction names with
  | nil => cases hn
  | cons a rest ih =>
    by_cases ha : a = n
    · subst ha
      simp [DF.lookupCol, List.find?_cons]
    · rcases List.mem_cons.mp hn with h1 | h1
      · exact absurd h1.symm ha
      · have hrec := ih h1
        simp only [DF.lookupCol] at hrec
        simpa [DF.lookupCol, List.find?_cons, ha] using hrec

theorem lookup_selected_eq (d : DF) (names : List String) (n : String) (hn : n ∈ names)
    (hs : (d.lookupCol n).isSome) :
    DF.lookupCol ⟨names.map (fun m => (m, (d.lookupCol m).getD []))⟩ n = d.lookupCol n := by
  have h := lookup_selected d names n hn
  cases hcase : d.lookupCol n with
  | none => rw [hcase] at hs; simp at hs
  | some v => rw [hcase] at h; simpa using h

/-- C1: the spec says an in-memory table passed directly as `source` runs the
single-table path and returns one table; the code's own docstring also
advertises "Pandas Dataframe or path to tsv file(s)". The type dispatch in
`load_confounds`, however, only accepts strings and lists, so every in-memory
frame falls through to `raise ValueError("Invalid input type")`. This theorem
evaluates the code at the failing inputs: a DataFrame input always yields the
InvalidInput error, contradicting the claim — a code bug, since
`_load_confounds_main` handles frames and the docstring promises them. -/
theorem c1_dataframe_input_rejected (pca : List (List ℚ) → ℚ → List (List ℚ))
    (fs : String → Option DF) (d : DF) (strategy : List String)
    (n_components : ℚ) (motion_model : String) :
    load_confounds pca fs (.df d) strategy n_components motion_model
      = .error (.valueError "Invalid input type") := rfl

/-- C3: the motion model expander is total on the four model names and
returns exactly the claimed sets: the 6 base axis names for "6params", the
base names united with the derivative (resp. square) variants for
"derivatives" and "square" (12 names each), and all 24 variant names for
"full". -/
theorem c3_expander_on_the_four_models :
    ((_add_motion_model "6params").map List.toFinset = some motion_6params.toFinset) ∧
    ((_add_motion_model "derivatives").map List.toFinset = some ((motion_6params ++
      ["trans_x_derivative1", "trans_y_derivative1", "trans_z_derivative1",
       "rot_x_derivative1", "rot_y_derivative1", "rot_z_derivative1"]).toFinset)) ∧
    ((_add_motion_model "square").map List.toFinset = some ((motion_6params ++
      ["trans_x_power2", "trans_y_power2", "trans_z_power2",
       "rot_x_power2", "rot_y_power2", "rot_z_power2"]).toFinset)) ∧
    ((_add_motion_model "full").map List.toFinset = some ((motion_6params ++
      ["trans_x_derivative1", "trans_y_derivative1", "trans_z_derivative1",
       "rot_x_derivative1", "rot_y_derivative1", "rot_z_derivative1"] ++
      ["trans_x_power2", "trans_y_power2", "trans_z_power2",
       "rot_x_power2", "rot_y_power2", "rot_z_power2"] ++
      ["trans_x_derivative1_power2", "trans_y_derivative1_power2",
       "trans_z_derivative1_power2", "rot_x_derivative1_power2",
       "rot_y_derivative1_power2", "rot_z_derivative1_power2"]).toFinset)) ∧
    ((_add_motion_model "6params").getD []).length = 6 ∧
    ((_add_motion_model "derivatives").getD []).length = 12 ∧
    ((_add_motion_model "square").getD []).length = 12 ∧
    ((_add_motion_model "full").getD []).length = 24 ∧
    ((_add_motion_model "6params").getD []).Nodup ∧
    ((_add_motion_model "derivatives").getD []).Nodup ∧
    ((_add_motion_model "square").getD []).Nodup ∧
    ((_add_motion_model "full").getD []).Nodup := by decide

/-- C2 counterexample: on the spec's own §8 example table (columns
`trans_x, rot_y, csf, cosine00, t_comp_cor_00`) the expanded name `rot_x`
is absent, and the motion reducer does NOT skip it: slicing the raw table by
the expanded names raises `KeyError("rot_x")`, refuting "expanded names
absent from the table select nothing (are skipped) and do not cause an
error". -/
theorem c2_counterexample :
    "trans_y" ∈ (_add_motion_model "6params").getD [] ∧
    specTable.lookupCol "trans_y" = none ∧
    _pca_motion pcaZero ⟨[]⟩ specTable 0 "6params" = .error (.keyError "trans_y") := by
  decide

/-- C2 amended: expanded motion names absent from the raw table are NOT
skipped — the table-slicing stage of the motion reducer requires every
expanded name to be present and fails with a MissingColumn (KeyError) when
any is absent, the same presence requirement as for literal requests; only
the expansion stage itself (pure name generation) never consults the table
and cannot error. -/
theorem c2_amended_absent_expanded_name_errors
    (pca : List (List ℚ) → ℚ → List (List ℚ)) (out d : DF)
    (n_components : ℚ) (motion_model : String) (mc : List String)
    (hm : _add_motion_model motion_model = some mc)
    (habs : ∃ c ∈ mc, d.lookupCol c = none) :
    ∃ c, _pca_motion pca out d n_components motion_model = .error (.keyError c) := by
  obtain ⟨c0, hsel⟩ := d.select_err mc habs
  refine ⟨c0, ?_⟩
  unfold _pca_motion
  rw [hm]
  simp only [hsel]

/-- C2 amended, witness at the §8 example table. -/
theorem c2_amended_witness :
    ∃ c, _pca_motion pcaZero ⟨[]⟩ specTable (19/20) "6params" = .error (.keyError c) :=
  c2_amended_absent_expanded_name_errors pcaZero ⟨[]⟩ specTable (19/20) "6params"
    motion_6params (by decide) (by decide)

/-- C4: round-trip under no reduction. When `n_components = 0` and the raw
table contains every expanded motion column of the requested model, the
motion portion of `_pca_motion`'s output is exactly the slice of the input by
the expanded names: each column keeps its original name and its original cell
list (hence the original values and row count), and the result is the plain
concatenation of the incoming frame with that slice. -/
theorem c4_no_reduction_roundtrip (pca : List (List ℚ) → ℚ → List (List ℚ))
    (out d : DF) (motion_model : String) (mc : List String)
    (hm : _add_motion_model motion_model = some mc)
    (hall : ∀ n ∈ mc, (d.lookupCol n).isSome) :
    _pca_motion pca out d 0 motion_model =
      .ok (DF.concat out ⟨mc.map (fun n => (n, (d.lookupCol n).getD []))⟩) ∧
    ∀ n ∈ mc,
      DF.lookupCol ⟨mc.map (fun n2 => (n2, (d.lookupCol n2).getD []))⟩ n
        = d.lookupCol n := by
  constructor
  · unfold _pca_motion
    rw [hm]
    simp [d.select_ok mc hall]
  · intro n hn
    exact lookup_selected_eq d mc n hn (hall n hn)

/-- C4 witness: at `motTable` with model "6params", the motion columns pass
through byte-for-byte. -/
theorem c4_no_reduction_roundtrip_witness :
    _pca_motion pcaZero ⟨[]⟩ motTable 0 "6params" =
      .ok (DF.concat ⟨[]⟩
        ⟨motion_6params.map (fun n => (n, (motTable.lookupCol n).getD []))⟩) ∧
    ∀ n ∈ motion_6params,
      DF.lookupCol ⟨motion_6params.map (fun n2 => (n2, (motTable.lookupCol n2).getD []))⟩ n
        = motTable.lookupCol n :=
  c4_no_reduction_roundtrip pcaZero ⟨[]⟩ motTable "6params" motion_6params
    (by decide) (by decide)

/-! Membership lemmas for the canonical Python-set operations. -/

theorem mem_pyInsert_left {s : List String} {y : String} (x : String) (h : y ∈ s) :
    y ∈ pyInsert s x := by
  unfold pyInsert
  split
  · exact h
  · exact List.mem_append_left _ h

theorem mem_pyInsert_self (s : List String) (x : String) : x ∈ pyInsert s x := by
  unfold pyInsert
  split
  · assumption
  · exact List.mem_append_right _ (List.mem_singleton.mpr rfl)

theorem mem_pyUnion_left {y : String} : ∀ (l s : List String), y ∈ s → y ∈ pyUnion s l := by
  intro l
  induction l with
  | nil => intro s h; exact h
  | cons a t ih =>
    intro s h
    exact ih (pyInsert s a) (mem_pyInsert_left a h)

theorem mem_pyUnion_right {y : String} : ∀ (l s : List String), y ∈ l → y ∈ pyUnion s l := by
  intro l
  induction l with
  | nil => intro s h; cases h
  | cons a t ih =>
    intro s h
    rcases List.mem_cons.mp h with h1 | h1
    · subst h1
      exact mem_pyUnion_left t (pyInsert s y) (mem_pyInsert_self s y)
    · exact ih (pyInsert s a) h1

theorem pyUnion_of_subset : ∀ (l s : List String), (∀ x ∈ l, x ∈ s) → pyUnion s l = s := by
  intro l
  induction l with
  | nil => intro s _; rfl
  | cons a t ih =>
    intro s h
    have ha : pyInsert s a = s := by
      unfold pyInsert
      rw [if_pos (h a (List.mem_cons_self a t))]
    show pyUnion (pyInsert s a) t = s
    rw [ha]
    exact ih s (fun x hx => h x (List.mem_cons_of_mem a hx))

theorem mem_interestStep_left {y : String} {acc : List String} (d : DF) (s : String)
    (h : y ∈ acc) : y ∈ interestStep d acc s := by
  unfold interestStep
  split
  · exact mem_pyUnion_left _ _ h
  · exact mem_pyInsert_left _ h

theorem mem_foldl_interest_left {y : String} (d : DF) :
    ∀ (strategy : List String) (acc : List String), y ∈ acc →
      y ∈ strategy.foldl (interestStep d) acc := by
  intro strategy
  induction strategy with
  | nil => intro acc h; exact h
  | cons s t ih =>
    intro acc h
    exact ih (interestStep d acc s) (mem_interestStep_left d s h)

theorem literal_mem_foldl_interest {lit : String} (d : DF) (hnk : confound_dict lit = none) :
    ∀ (strategy : List String) (acc : List String), lit ∈ strategy →
      lit ∈ strategy.foldl (interestStep d) acc := by
  intro strategy
  induction strategy with
  | nil => intro acc h; cases h
  | cons s t ih =>
    intro acc h
    rcases List.mem_cons.mp h with h1 | h1
    · subst h1
      apply mem_foldl_interest_left d t
      unfold interestStep
      rw [hnk]
      simp only [Option.isSome_none, Bool.false_eq_true, if_false]
      exact mem_pyInsert_self acc lit
    · exact ih (interestStep d acc s) h1

theorem literal_mem_resolveInterest {lit : String} (d : DF) (strategy : List String)
    (hmem : lit ∈ strategy) (hnk : confound_dict lit = none) :
    lit ∈ resolveInterest d strategy :=
  literal_mem_foldl_interest d hnk strategy [] hmem

/-- C5: a literal (non-catalog) strategy entry naming a non-motion column
that is absent from the raw table makes `_load_confounds_main` fail with a
MissingColumn (KeyError) at the table-slicing step; the absent request is not
silently dropped. (A catalog strategy can only resolve to columns actually
present in the raw table, so the literal case is the only way an absent
non-motion name enters the selection.) -/
theorem c5_missing_literal_fails (pca : List (List ℚ) → ℚ → List (List ℚ))
    (fs : String → Option DF) (d : DF) (strategy : List String)
    (n_components : ℚ) (motion_model : String) (lit : String)
    (hmem : lit ∈ strategy) (hnk : confound_dict lit = none)
    (hrot : strContains lit "rot" = false) (htrans : strContains lit "trans" = false)
    (habs : d.lookupCol lit = none) :
    ∃ c, _load_confounds_main pca fs (.df d) strategy n_components motion_model
      = .error (.keyError c) := by
  have hint : lit ∈ resolveInterest d strategy :=
    literal_mem_resolveInterest d strategy hmem hnk
  have hnm : lit ∈ nonMotionList d strategy := by
    unfold nonMotionList
    exact List.mem_filter.mpr ⟨hint, by simp [hrot, htrans]⟩
  obtain ⟨c, hsel⟩ := d.select_err (nonMotionList d strategy) ⟨lit, hnm, habs⟩
  refine ⟨c, ?_⟩
  unfold _load_confounds_main loadRaw
  simp only [hsel]

/-- C5 witness: strategy `["minimal", "global_signal"]` on a table without a
`global_signal` column fails with a KeyError. -/
theorem c5_missing_literal_fails_witness :
    ∃ c, _load_confounds_main pcaZero fsEmpty (.df motTable)
      ["minimal", "global_signal"] (19/20) "6params" = .error (.keyError c) :=
  c5_missing_literal_fails pcaZero fsEmpty motTable ["minimal", "global_signal"]
    (19/20) "6params" "global_signal" (by decide) (by decide) (by decide)
    (by decide) (by decide)

/-- C7: strategy-union idempotence. Listing "minimal" twice resolves to the
same selected column set as listing it once, and the whole single-table
output is identical. -/
theorem c7_minimal_idempotent (pca : List (List ℚ) → ℚ → List (List ℚ))
    (fs : String → Option DF) (d : DF) (n_components : ℚ) (motion_model : String) :
    resolveInterest d ["minimal", "minimal"] = resolveInterest d ["minimal"] ∧
    _load_confounds_main pca fs (.df d) ["minimal", "minimal"] n_components motion_model
      = _load_confounds_main pca fs (.df d) ["minimal"] n_components motion_model := by
  have hres : resolveInterest d ["minimal", "minimal"] = resolveInterest d ["minimal"] := by
    show List.foldl (interestStep d) [] ["minimal", "minimal"]
        = List.foldl (interestStep d) [] ["minimal"]
    simp only [List.foldl_cons, List.foldl_nil]
    show interestStep d (interestStep d [] "minimal") "minimal"
        = interestStep d [] "minimal"
    unfold interestStep
    simp only [confound_dict]
    norm_num
    exact pyUnion_of_subset _ _ (fun x hx => mem_pyUnion_right _ _ hx)
  refine ⟨hres, ?_⟩
  simp only [_load_confounds_main, nonMotionList, loadRaw, hres]

/-! Helper lemmas about `List.mapM` over the `Except` monad. -/

theorem exceptMapM_ok_length {α β : Type} (g : α → Except PyErr β) :
    ∀ (l : List α) (outs : List β), l.mapM g = .ok outs → outs.length = l.length := by
  intro l
  induction l with
  | nil =>
    intro outs h
    simp only [List.mapM_nil, pure, Except.pure] at h
    cases h
    rfl
  | cons a t ih =>
    intro outs h
    rw [List.mapM_cons] at h
    cases hga : g a with
    | error e => rw [hga] at h; simp [Bind.bind, Except.bind] at h
    | ok b =>
      rw [hga] at h
      cases ht : t.mapM g with
      | error e =>
        rw [ht] at h
        simp [Bind.bind, Except.bind, pure, Except.pure] at h
      | ok bs =>
        rw [ht] at h
        simp only [Bind.bind, Except.bind, pure, Except.pure] at h
        cases h
        simp [ih bs ht]

theorem exceptMapM_ok_get {α β : Type} (g : α → Except PyErr β) :
    ∀ (l : List α) (outs : List β), l.mapM g = .ok outs →
      ∀ i (hi : i < l.length) (hi2 : i < outs.length),
        g (l.get ⟨i, hi⟩) = .ok (outs.get ⟨i, hi2⟩) := by
  intro l
  induction l with
  | nil => intro outs h i hi hi2; cases hi
  | cons a t ih =>
    intro outs h i hi hi2
    rw [List.mapM_cons] at h
    cases hga : g a with
    | error e => rw [hga] at h; simp [Bind.bind, Except.bind] at h
    | ok b =>
      rw [hga] at h
      cases ht : t.mapM g with
      | error e =>
        rw [ht] at h
        simp [Bind.bind, Except.bind, pure, Except.pure] at h
      | ok bs =>
        rw [ht] at h
        simp only [Bind.bind, Except.bind, pure, Except.pure] at h
        cases h
        cases i with
        | zero => simpa using hga
        | succ j =>
          exact ih bs ht j (Nat.lt_of_succ_lt_succ hi) (Nat.lt_of_succ_lt_succ hi2)

theorem mapM_helperVal_over_str (pca : List (List ℚ) → ℚ → List (List ℚ))
    (fs : String → Option DF) (strategy : List String)
    (n_components : ℚ) (motion_model : String) :
    ∀ files : List String,
      (files.map PyVal.str).mapM
          (fun v => _load_confounds_helper_val pca fs v strategy n_components motion_model)
        = files.mapM
          (fun f => _load_confounds_helper pca fs f strategy n_components motion_model) := by
  intro files
  induction files with
  | nil => rfl
  | cons a t ih =>
    rw [List.map_cons, List.mapM_cons, List.mapM_cons, ih]
    rfl

/-- C8: a batch of N file references yields an output sequence of exactly N
tables, the i-th being the single-table path applied to the i-th reference,
in input order. Stated under the assumption that each element succeeds (one
failing element aborts the whole batch, per spec §5). -/
theorem c8_batch_order_preserved (pca : List (List ℚ) → ℚ → List (List ℚ))
    (fs : String → Option DF) (files : List String) (strategy : List String)
    (n_components : ℚ) (motion_model : String) (outs : List DF)
    (h : files.mapM
        (fun f => _load_confounds_helper pca fs f strategy n_components motion_model)
      = .ok outs) :
    load_confounds pca fs (.list (files.map .str)) strategy n_components motion_model
      = .ok (.list (outs.map .df)) ∧
    outs.length = files.length ∧
    ∀ i (hi : i < files.length) (hi2 : i < outs.length),
      _load_confounds_helper pca fs (files.get ⟨i, hi⟩) strategy n_components motion_model
        = .ok (outs.get ⟨i, hi2⟩) := by
  refine ⟨?_, exceptMapM_ok_length _ files outs h, exceptMapM_ok_get _ files outs h⟩
  show ((files.map PyVal.str).mapM
      (fun v => _load_confounds_helper_val pca fs v strategy n_components motion_model)).map
      (fun outs => PyVal.list (outs.map .df)) = _
  rw [mapM_helperVal_over_str, h]
  rfl

/-- C8 witness: three file references, each loading the same raw table,
produce the three identical single-table outputs in order. -/
theorem c8_batch_order_preserved_witness :
    load_confounds pcaZero fsBatch (.list (["a.tsv", "b.tsv", "c.tsv"].map .str))
        ["minimal"] 0 "6params"
      = .ok (.list ([batchOut, batchOut, batchOut].map .df)) ∧
    ([batchOut, batchOut, batchOut] : List DF).length = ["a.tsv", "b.tsv", "c.tsv"].length ∧
    ∀ i (hi : i < ["a.tsv", "b.tsv", "c.tsv"].length)
      (hi2 : i < ([batchOut, batchOut, batchOut] : List DF).length),
      _load_confounds_helper pcaZero fsBatch (["a.tsv", "b.tsv", "c.tsv"].get ⟨i, hi⟩)
          ["minimal"] 0 "6params"
        = .ok (([batchOut, batchOut, batchOut] : List DF).get ⟨i, hi2⟩) :=
  c8_batch_order_preserved pcaZero fsBatch ["a.tsv", "b.tsv", "c.tsv"] ["minimal"]
    0 "6params" [batchOut, batchOut, batchOut] (by decide)

/-- C9: when the resolved selection contains motion-substring columns (names
containing "rot" or "trans") but none of the six base parameter names, the
motion step is skipped and the output is exactly the non-motion slice: its
columns are the non-motion selection, no output column contains "rot" or
"trans", and every selected motion-substring column is silently absent from
the output. (Requires the non-motion selection itself to be present in the
table, otherwise slicing fails first.) -/
theorem c9_no_base_names_no_motion_columns (pca : List (List ℚ) → ℚ → List (List ℚ))
    (fs : String → Option DF) (d : DF) (strategy : List String)
    (n_components : ℚ) (motion_model : String)
    (hmot : ∃ c ∈ resolveInterest d strategy,
      (strContains c "rot" || strContains c "trans") = true)
    (hbase : motion_6params.any (fun p => (resolveInterest d strategy).contains p) = false)
    (hok : ∀ nm ∈ nonMotionList d strategy, (d.lookupCol nm).isSome) :
    ∃ out, _load_confounds_main pca fs (.df d) strategy n_components motion_model
        = .ok out ∧
      out.columns = nonMotionList d strategy ∧
      (∀ c ∈ out.columns, strContains c "rot" = false ∧ strContains c "trans" = false) ∧
      ∀ c ∈ resolveInterest d strategy,
        (strContains c "rot" || strContains c "trans") = true → c ∉ out.columns := by
  have hsel := d.select_ok (nonMotionList d strategy) hok
  refine ⟨⟨(nonMotionList d strategy).map (fun n => (n, (d.lookupCol n).getD []))⟩,
    ?_, ?_, ?_, ?_⟩
  · unfold _load_confounds_main loadRaw
    simp only [hsel, hbase]
    simp
  · simp only [DF.columns, List.map_map]
    exact List.map_id _
  · intro c hc
    simp only [DF.columns, List.map_map] at hc
    have hc2 : c ∈ nonMotionList d strategy := by simpa using hc
    have hpred := (List.mem_filter.mp hc2).2
    simp at hpred
    exact ⟨hpred.1, hpred.2⟩
  · intro c _ hcmot hmem
    simp only [DF.columns, List.map_map] at hmem
    have hc2 : c ∈ nonMotionList d strategy := by simpa using hmem
    have hpred := (List.mem_filter.mp hc2).2
    simp at hpred hcmot
    rcases hcmot with h3 | h3
    · rw [hpred.1] at h3; cases h3
    · rw [hpred.2] at h3; cases h3

/-- C9 witness: a table whose only column is `rotation_q`, requested as a
literal: it matches the motion substring test, is not a base parameter, and
the output is the empty table. -/
theorem c9_no_base_names_no_motion_columns_witness :
    ∃ out, _load_confounds_main pcaZero fsEmpty (.df rotTable) ["rotation_q"]
        (19/20) "6params" = .ok out ∧
      out.columns = nonMotionList rotTable ["rotation_q"] ∧
      (∀ c ∈ out.columns, strContains c "rot" = false ∧ strContains c "trans" = false) ∧
      ∀ c ∈ resolveInterest rotTable ["rotation_q"],
        (strContains c "rot" || strContains c "trans") = true → c ∉ out.columns :=
  c9_no_base_names_no_motion_columns pcaZero fsEmpty rotTable ["rotation_q"]
    (19/20) "6params" (by decide) (by decide) (by decide)

/-! Structure lemmas for the motion-reduction output. -/

theorem DF.select_columns (d : DF) (names : List String) (t : DF)
    (h : d.select names = .ok t) : t.columns = names := by
  unfold DF.select at h
  cases hf : names.find? (fun n => (d.lookupCol n).isNone) with
  | some c => rw [hf] at h; cases h
  | none =>
    rw [hf] at h
    cases h
    simp only [DF.columns, List.map_map]
    exact List.map_id _

theorem DF.select_length (d : DF) (names : List String) (t : DF)
    (h : d.select names = .ok t) : t.cols.length = names.length := by
  have hc := DF.select_columns d names t h
  have : t.cols.length = t.columns.length := by simp [DF.columns]
  rw [this, hc]

/-- The motion portion appended by `_pca_motion` is a function of the raw
table, the reduction setting and the motion model only — the frame it is
appended to never influences it. -/
theorem _pca_motion_out_independent (pca : List (List ℚ) → ℚ → List (List ℚ))
    (d : DF) (n_components : ℚ) (motion_model : String) (out r : DF)
    (h : _pca_motion pca out d n_components motion_model = .ok r) :
    ∃ mc slice mp, _add_motion_model motion_model = some mc ∧
      d.select mc = .ok slice ∧ slice.columns = mc ∧ r = DF.concat out mp ∧
      ∀ out2 r2, _pca_motion pca out2 d n_components motion_model = .ok r2 →
        r2 = DF.concat out2 mp := by
  unfold _pca_motion at h
  cases ha : _add_motion_model motion_model with
  | none => rw [ha] at h; cases h
  | some mc =>
    simp only [ha] at h
    cases hs : d.select mc with
    | error e => rw [hs] at h; cases h
    | ok slice =>
      simp only [hs] at h
      refine ⟨mc, slice, ?_⟩
      by_cases hn : n_components = 0
      · refine ⟨slice, rfl, hs, DF.select_columns d mc slice hs, ?_, ?_⟩
        · rw [if_pos hn] at h
          cases h
          rfl
        · intro out2 r2 h2
          unfold _pca_motion at h2
          simp only [ha, hs] at h2
          rw [if_pos hn] at h2
          cases h2
          rfl
      · refine ⟨⟨(pcaRename (pca slice.dropna.valuesRows n_components).length).zip
          ((pca slice.dropna.valuesRows n_components).map (fun col => col.map some))⟩,
          rfl, hs, DF.select_columns d mc slice hs, ?_, ?_⟩
        · simp only [if_neg hn] at h
          cases h
          rfl
        · intro out2 r2 h2
          unfold _pca_motion at h2
          simp only [ha, hs] at h2
          simp only [if_neg hn] at h2
          cases h2
          rfl

/-- C10: noninterference of the strategy list on the motion portion. For two
strategy lists that both trigger the motion step (each resolves at least one
base motion name), on the same raw table, reduction setting and motion model,
the motion portion of the two outputs is identical (the columns past the
respective non-motion prefixes coincide), and the columns fed to reduction
are exactly the expansion of the motion model — independent of which motion
columns the strategies matched. -/
theorem c10_motion_portion_noninterference (pca : List (List ℚ) → ℚ → List (List ℚ))
    (fs : String → Option DF) (d : DF) (n_components : ℚ) (motion_model : String)
    (s1 s2 : List String) (o1 o2 : DF)
    (hb1 : motion_6params.any (fun p => (resolveInterest d s1).contains p) = true)
    (hb2 : motion_6params.any (fun p => (resolveInterest d s2).contains p) = true)
    (h1 : _load_confounds_main pca fs (.df d) s1 n_components motion_model = .ok o1)
    (h2 : _load_confounds_main pca fs (.df d) s2 n_components motion_model = .ok o2) :
    o1.cols.drop (nonMotionList d s1).length = o2.cols.drop (nonMotionList d s2).length ∧
    ∃ mc slice, _add_motion_model motion_model = some mc ∧
      d.select mc = .ok slice ∧ slice.columns = mc := by
  unfold _load_confounds_main loadRaw at h1 h2
  simp only [hb1] at h1
  simp only [hb2] at h2
  cases hsel1 : d.select (nonMotionList d s1) with
  | error e => rw [hsel1] at h1; cases h1
  | ok out1 =>
    rw [hsel1] at h1
    cases hsel2 : d.select (nonMotionList d s2) with
    | error e => rw [hsel2] at h2; cases h2
    | ok out2 =>
      rw [hsel2] at h2
      obtain ⟨mc, slice, mp, ha, hs, hcols, hr1, hall⟩ :=
        _pca_motion_out_independent pca d n_components motion_model out1 o1 h1
      have hr2 := hall out2 o2 h2
      constructor
      · rw [hr1, hr2]
        show (out1.cols ++ mp.cols).drop _ = (out2.cols ++ mp.cols).drop _
        rw [← DF.select_length d _ out1 hsel1, ← DF.select_length d _ out2 hsel2,
          List.drop_left, List.drop_left]
      · exact ⟨mc, slice, ha, hs, hcols⟩

/-- C10 witness: strategies `["motion"]` and `["minimal"]` on the same table
both trigger the motion step and their motion portions agree. -/
theorem c10_motion_portion_noninterference_witness :
    motOnlyOut.cols.drop (nonMotionList motTable ["motion"]).length
      = batchOut.cols.drop (nonMotionList motTable ["minimal"]).length ∧
    ∃ mc slice, _add_motion_model "6params" = some mc ∧
      motTable.select mc = .ok slice ∧ slice.columns = mc :=
  c10_motion_portion_noninterference pcaZero fsEmpty motTable 0 "6params"
    ["motion"] ["minimal"] motOnlyOut batchOut
    (by decide) (by decide) (by decide) (by decide)

/-! Properties of the spec-modelled component-count selection. -/

theorem pcaNumComponents_reaches (t : ℚ) :
    ∀ evr : List ℚ, t ≤ evr.sum → t ≤ (evr.take (pcaNumComponents t evr)).sum := by
  intro evr
  induction evr generalizing t with
  | nil =>
    intro h
    simpa [pcaNumComponents] using h
  | cons x xs ih =>
    intro h
    unfold pcaNumComponents
    by_cases hx : t ≤ x
    · rw [if_pos hx]
      simpa using hx
    · rw [if_neg hx]
      have h2 : t - x ≤ xs.sum := by
        simp only [List.sum_cons] at h
        linarith
      have := ih (t - x) h2
      rw [Nat.add_comm 1 (pcaNumComponents (t - x) xs)]
      simp only [List.take_succ_cons, List.sum_cons]
      linarith

theorem pcaNumComponents_minimal (t : ℚ) :
    ∀ evr : List ℚ, 0 < t → ∀ j < pcaNumComponents t evr, (evr.take j).sum < t := by
  intro evr
  induction evr generalizing t with
  | nil =>
    intro _ j hj
    simp [pcaNumComponents] at hj
  | cons x xs ih =>
    intro ht j hj
    unfold pcaNumComponents at hj
    by_cases hx : t ≤ x
    · rw [if_pos hx] at hj
      interval_cases j
      simpa using ht
    · rw [if_neg hx] at hj
      cases j with
      | zero => simpa using ht
      | succ j2 =>
        have hj2 : j2 < pcaNumComponents (t - x) xs := by omega
        have := ih (t - x) (by linarith [lt_of_not_le hx]) j2 hj2
        simp only [List.take_succ_cons, List.sum_cons]
        linarith

theorem pcaNumComponents_le_length (t : ℚ) :
    ∀ evr : List ℚ, t ≤ evr.sum → pcaNumComponents t evr ≤ evr.length := by
  intro evr
  induction evr generalizing t with
  | nil => intro _; simp [pcaNumComponents]
  | cons x xs ih =>
    intro h
    unfold pcaNumComponents
    by_cases hx : t ≤ x
    · rw [if_pos hx]
      simp
    · rw [if_neg hx]
      have h2 : t - x ≤ xs.sum := by
        simp only [List.sum_cons] at h
        linarith
      have := ih (t - x) h2
      simp only [List.length_cons]
      omega

theorem pcaRename_length (k : ℕ) : (pcaRename k).length = k := by
  simp [pcaRename]

/-- C6: variance-proportion reduction. When `0 < n_components < 1`, the
motion model expands successfully, the expanded columns are present, and the
external PCA collaborator honors its contract — its explained-variance ratios
`evr` sum to 1, are sorted in descending order, number at most the motion
columns, and it returns `pcaNumComponents n_components evr` component columns
(the spec-modelled minimum count reaching the target) — the reduction step
outputs exactly columns `motion_pca_1 … motion_pca_k` where `k` reaches the
cumulative target, no smaller count does, `k` is at most the number of input
motion columns, and the per-component ratios are in descending order. -/
theorem c6_variance_target_component_count (pca : List (List ℚ) → ℚ → List (List ℚ))
    (out d : DF) (t : ℚ) (motion_model : String) (mc : List String) (slice : DF)
    (evr : List ℚ)
    (ht0 : 0 < t) (ht1 : t < 1)
    (hm : _add_motion_model motion_model = some mc)
    (hs : d.select mc = .ok slice)
    (hrows : 2 ≤ slice.dropna.nrows)
    (hsum : evr.sum = 1)
    (hsorted : evr.Sorted (· ≥ ·))
    (hcols : evr.length ≤ mc.length)
    (hpca : (pca slice.dropna.valuesRows t).length = pcaNumComponents t evr) :
    ∃ mp, _pca_motion pca out d t motion_model = .ok (DF.concat out mp) ∧
      mp.columns = pcaRename (pcaNumComponents t evr) ∧
      t ≤ (evr.take (pcaNumComponents t evr)).sum ∧
      (∀ j < pcaNumComponents t evr, (evr.take j).sum < t) ∧
      pcaNumComponents t evr ≤ mc.length ∧
      (evr.take (pcaNumComponents t evr)).Sorted (· ≥ ·) := by
  have htsum : t ≤ evr.sum := by rw [hsum]; exact le_of_lt ht1
  refine ⟨⟨(pcaRename (pca slice.dropna.valuesRows t).length).zip
      ((pca slice.dropna.valuesRows t).map (fun col => col.map some))⟩, ?_, ?_, ?_, ?_, ?_, ?_⟩
  · unfold _pca_motion
    rw [hm]
    simp only [hs]
    rw [if_neg (ne_of_gt ht0)]
  · simp only [DF.columns]
    rw [List.map_fst_zip]
    · rw [hpca]
    · rw [pcaRename_length, List.length_map]
  · exact pcaNumComponents_reaches t evr htsum
  · exact pcaNumComponents_minimal t evr ht0
  · exact le_trans (pcaNumComponents_le_length t evr htsum) hcols
  · exact hsorted.sublist (List.take_sublist _ _)

/-- C6 witness: explained-variance ratios `[9/10, 1/10]` against target
`19/20` select two components named `motion_pca_1, motion_pca_2`. -/
theorem c6_variance_target_component_count_witness :
    ∃ mp, _pca_motion pcaTwo ⟨[]⟩ motTable (19/20) "6params" = .ok (DF.concat ⟨[]⟩ mp) ∧
      mp.columns = pcaRename (pcaNumComponents (19/20) [9/10, 1/10]) ∧
      (19/20 : ℚ) ≤ (([9/10, 1/10] : List ℚ).take
        (pcaNumComponents (19/20) [9/10, 1/10])).sum ∧
      (∀ j < pcaNumComponents (19/20) [9/10, 1/10],
        (([9/10, 1/10] : List ℚ).take j).sum < 19/20) ∧
      pcaNumComponents (19/20) [9/10, 1/10] ≤ motion_6params.length ∧
      (([9/10, 1/10] : List ℚ).take
        (pcaNumComponents (19/20) [9/10, 1/10])).Sorted (· ≥ ·) :=
  c6_variance_target_component_count pcaTwo ⟨[]⟩ motTable (19/20) "6params"
    motion_6params motOnlyOut [9/10, 1/10]
    (by norm_num) (by norm_num) (by decide) (by decide) (by decide)
    (by norm_num)
    (by norm_num [List.sorted_cons, List.sorted_singleton])
    (by decide)
    (by norm_num [pcaTwo, pcaNumComponents])

end LoadConfounds
